import Mathlib

/-!
Verification of the CalcBlocks Python-to-LaTeX converter
(src/python_to_latex.py) against its natural-language specification.

Modelling conventions (shallow embedding):
* Python floats are modelled as exact rationals (`ℚ`), with the three
  non-finite values (`inf`, `-inf`, `nan`) as explicit extra constructors
  of `PFloat`.  Binary64 rounding artifacts are outside the model; the
  format strings `"%g"` / `"%.6g"` of the host language are modelled by
  `fmtGP`, an exact-rational implementation of general ("g") formatting
  with round-half-to-even at the digit level, matching CPython's behaviour
  on the rationals it is applied to in this development.
* Python `exec`-based evaluation of a statement is an external collaborator
  (spec section 1 declares it out of scope); it is modelled as a parameter
  `eval : Env → Stmt → Option Env` (`none` = the evaluation raised).
  Following spec section 9, a failed statement is treated as fully rolled
  back: the sequencer continues with the unchanged environment.
* A Python exception escaping `python_to_latex` itself (i.e. one raised
  outside the `try` blocks around `exec`) is modelled by the result `none`
  of an `Option`-valued function.
* All numeric computation inside the embedded definitions is done on the
  integer numerator/denominator pair of a rational, because those
  operations evaluate inside the Lean kernel; a `Rat` is only taken apart
  and rebuilt, never operated on directly.
-/

/-- Decimal digits of a natural number, most significant first; the first
argument is recursion fuel (always sufficient at `n + 1`). -/
def natDigsAux : Nat → Nat → List Char
  | 0, _ => []
  | fuel + 1, n =>
    if n < 10 then [Nat.digitChar n]
    else natDigsAux fuel (n / 10) ++ [Nat.digitChar (n % 10)]

/-- Decimal digit list of a natural number (e.g. `120 ↦ "120"`). -/
def natDigs (n : Nat) : List Char := natDigsAux (n + 1) n

/-- Decimal string of an integer, as produced by Python `str(int)`. -/
def intStr (z : ℤ) : String :=
  if z < 0 then String.mk ('-' :: natDigs z.natAbs) else String.mk (natDigs z.natAbs)

/-- Strip trailing zero characters (used for "g"-format fraction parts). -/
def stripTZ (l : List Char) : List Char :=
  (l.reverse.dropWhile (fun c => c == '0')).reverse

/-- Round `n / d` (with `d > 0`) to the nearest integer, ties to even:
the rounding used by Python's `round` and by "%g" formatting. -/
def bankRoundPair (n d : ℤ) : ℤ :=
  let f := n / d
  let rem := n % d
  if 2 * rem < d then f
  else if d < 2 * rem then f + 1
  else if f % 2 = 0 then f else f + 1

/-- Round a rational to the nearest integer, ties to even (Python `round`). -/
def bankRound (q : ℚ) : ℤ := bankRoundPair q.num q.den

/-- Decide `n / d < 10 ^ e` for positive integers `n`, `d` and an integer
exponent `e`, by cross-multiplication. -/
def pairLtPow10 (n d e : ℤ) : Bool :=
  if 0 ≤ e then n < 10 ^ e.toNat * d else n * 10 ^ (-e).toNat < d

/-- Decimal exponent of `n / d > 0`: the unique `e` with
`10 ^ e ≤ n / d < 10 ^ (e + 1)`. -/
def decExpPair (n d : ℤ) : ℤ :=
  let e0 : ℤ := ((natDigs n.toNat).length : ℤ) - ((natDigs d.toNat).length : ℤ)
  if pairLtPow10 n d e0 then e0 - 1 else e0

/-- Round `n / d > 0` to `prec` significant decimal digits: returns the
digit mantissa (in `[10 ^ (prec - 1), 10 ^ prec)`) and the decimal exponent. -/
def sigRound (prec : Nat) (n d : ℤ) : ℤ × ℤ :=
  let e1 := decExpPair n d
  let k : ℤ := (prec : ℤ) - 1 - e1
  let m0 := if 0 ≤ k then bankRoundPair (n * 10 ^ k.toNat) d
            else bankRoundPair n (d * 10 ^ (-k).toNat)
  if m0 = 10 ^ prec then ((10 : ℤ) ^ (prec - 1), e1 + 1) else (m0, e1)

/-- Character-list form of Python's general ("g") float formatting with
`prec` significant digits applied to the exact rational `q`:
fixed notation for decimal exponents in `[-4, prec)` with trailing zeros
stripped, otherwise scientific notation with a sign and a two-digit
minimum exponent. -/
def fmtGPL (prec : Nat) (q : ℚ) : List Char :=
  if q.num = 0 then ['0']
  else
    let sign : List Char := if q.num < 0 then ['-'] else []
    let n : ℤ := (q.num.natAbs : ℤ)
    let d : ℤ := (q.den : ℤ)
    let me := sigRound prec n d
    let m := me.1
    let e := me.2
    let ds := natDigs m.toNat
    if -4 ≤ e ∧ e < (prec : ℤ) then
      if 0 ≤ e then
        let k := e.toNat + 1
        let frac := stripTZ (ds.drop k)
        sign ++ ds.take k ++ (if frac = [] then [] else '.' :: frac)
      else
        sign ++ '0' :: '.' :: (List.replicate (e.natAbs - 1) '0' ++ stripTZ ds)
    else
      let frac := stripTZ (ds.drop 1)
      let mant := ds.take 1 ++ (if frac = [] then [] else '.' :: frac)
      let ex := natDigs e.natAbs
      let exP := if e.natAbs < 10 then '0' :: ex else ex
      sign ++ mant ++ 'e' :: (if e < 0 then '-' else '+') :: exP

/-- Python general ("g") formatting of an exact rational with `prec`
significant digits, as a string. -/
def fmtGP (prec : Nat) (q : ℚ) : String := String.mk (fmtGPL prec q)

/-- Decide `|q - N| < 1 / 10 ^ 10` by integer cross-multiplication
(the near-integer test of `format_value`, line 317 of the source). -/
def nearIntTest (q : ℚ) (N : ℤ) : Bool :=
  (q.num - N * (q.den : ℤ)).natAbs * 10 ^ 10 < q.den

/-- A Python float: an exact finite rational or one of the three
non-finite values. -/
inductive PFloat where
  | finite (q : ℚ)
  | inf
  | ninf
  | nan
deriving DecidableEq

/-- Python `f"\x7bval:g\x7d"` on a float: `%g` formatting; the non-finite
values print as `inf`, `-inf`, `nan`. -/
def gfmt : PFloat → String
  | .finite q => fmtGP 6 q
  | .inf => "inf"
  | .ninf => "-inf"
  | .nan => "nan"

/-- The Python test `x == 0` on a float (`nan == 0` is false). -/
def pfloatIsZero : PFloat → Bool
  | .finite q => q.num = 0
  | _ => false

/-- The Python test `x == N` on a float against an integer. -/
def pfloatEqInt (f : PFloat) (N : ℤ) : Bool :=
  match f with
  | .finite q => q.num = N ∧ q.den = 1
  | _ => false

/-- The Python test `x >= 0` on a float (`nan >= 0` is false). -/
def pfloatNonneg : PFloat → Bool
  | .finite q => 0 ≤ q.num
  | .inf => true
  | .ninf => false
  | .nan => false

/-- A Python scalar value as consumed by the formatter and renderers
(spec section 3, "Scalar Value"); `vNone` is Python `None` and `vOther`
an opaque object carrying its `str()` form. -/
inductive PyVal where
  | vInt (n : ℤ)
  | vFloat (f : PFloat)
  | vComplex (re im : PFloat)
  | vBool (b : Bool)
  | vStr (s : String)
  | vNone
  | vOther (s : String)
deriving DecidableEq

/-- Python `repr`Slash`str` of a float (`str(2.0) = "2.0"`).  The
shortest-round-trip digit selection of CPython is a binary64 artifact
outside the rational model; it is modelled here as exact-rational
17-significant-digit general formatting, with integral values printed
with a trailing `.0`. -/
def reprFloat : PFloat → String
  | .finite q => if q.den = 1 then intStr q.num ++ ".0" else fmtGP 17 q
  | .inf => "inf"
  | .ninf => "-inf"
  | .nan => "nan"

/-- A float component inside `repr(complex)`: CPython drops the trailing
`.0` of integral components there (`str(3+1j) = "(3+1j)"`). -/
def reprFloatC : PFloat → String
  | .finite q => if q.den = 1 then intStr q.num else fmtGP 17 q
  | .inf => "inf"
  | .ninf => "-inf"
  | .nan => "nan"

/-- Python `str(val)` on a scalar value.  For complex values this follows
CPython's `complex.__repr__`: imaginary-only when the real part is zero,
otherwise a parenthesised sum whose imaginary component carries an
explicit sign. -/
def pyStr : PyVal → String
  | .vInt n => intStr n
  | .vFloat f => reprFloat f
  | .vComplex re im =>
    if pfloatIsZero re then reprFloatC im ++ "j"
    else
      let imS := reprFloatC im
      let signed := match imS.data with
                    | '-' :: _ => imS
                    | _ => "+" ++ imS
      "(" ++ reprFloatC re ++ signed ++ "j)"
  | .vBool b => if b then "True" else "False"
  | .vStr s => s
  | .vNone => "None"
  | .vOther s => s

/-- Does `format_value` have a defined (non-raising) result for this value?
False exactly for non-finite floats, where Python `round` raises
`OverflowError` Slash `ValueError`. -/
def finiteVal : PyVal → Bool
  | .vFloat (.finite _) => true
  | .vFloat _ => false
  | _ => true

/-- Embedding of `format_value` (source lines 297-323).  `none` models the
exception Python `round` raises on a non-finite float; every other value
kind has a total rendering.  The branch order (complex, float, bool,
other) is the source's `isinstance` chain. -/
def format_value : PyVal → Option String
  | .vComplex re im =>
    let real := if !(pfloatIsZero re) then gfmt re else ""
    let imag := if pfloatEqInt im 1 then "j"
                else if pfloatEqInt im (-1) then "-j"
                else gfmt im ++ "j"
    some (if real ≠ "" ∧ pfloatNonneg im then real ++ " + " ++ imag
          else if real ≠ "" then real ++ " " ++ imag
          else imag)
  | .vFloat (.finite q) =>
    if nearIntTest q (bankRound q) then some (intStr (bankRound q))
    else some (fmtGP 6 q)
  | .vFloat _ => none
  | .vBool b => some (if b then "\\text\x7bTrue\x7d" else "\\text\x7bFalse\x7d")
  | v => some (pyStr v)

/-- The Greek-letter table `GREEK_LETTERS` (source lines 25-48), in source
order. -/
def GREEK_LETTERS : List (String × String) :=
  [("alpha", "\\alpha"), ("beta", "\\beta"), ("gamma", "\\gamma"),
   ("Gamma", "\\Gamma"), ("delta", "\\delta"), ("Delta", "\\Delta"),
   ("epsilon", "\\epsilon"), ("varepsilon", "\\varepsilon"),
   ("zeta", "\\zeta"), ("eta", "\\eta"),
   ("theta", "\\theta"), ("Theta", "\\Theta"), ("vartheta", "\\vartheta"),
   ("iota", "\\iota"), ("kappa", "\\kappa"),
   ("lambda_", "\\lambda"),
   ("Lambda", "\\Lambda"),
   ("mu", "\\mu"), ("nu", "\\nu"), ("xi", "\\xi"), ("Xi", "\\Xi"),
   ("Pi", "\\Pi"), ("varpi", "\\varpi"),
   ("rho", "\\rho"), ("varrho", "\\varrho"),
   ("sigma", "\\sigma"), ("Sigma", "\\Sigma"), ("varsigma", "\\varsigma"),
   ("tau", "\\tau"),
   ("upsilon", "\\upsilon"), ("Upsilon", "\\Upsilon"),
   ("phi", "\\phi"), ("Phi", "\\Phi"), ("varphi", "\\varphi"),
   ("chi", "\\chi"),
   ("psi", "\\psi"), ("Psi", "\\Psi"),
   ("omega", "\\omega"), ("Omega", "\\Omega"),
   ("ohm", "\\Omega"),
   ("inf", "\\infty")]

/-- Python `GREEK_LETTERS.get(s, s)`: case-sensitive lookup with the name
itself as default. -/
def greekLookup (s : String) : String := (GREEK_LETTERS.lookup s).getD s

/-- The part of a name before its first underscore. -/
def baseOf (s : String) : String := String.mk (s.data.takeWhile (fun c => c != '_'))

/-- The part of a name after its first underscore (Python
`name.split(sep, 1)` keeps later underscores in this half). -/
def subOf (s : String) : String := String.mk ((s.data.dropWhile (fun c => c != '_')).drop 1)

/-- Embedding of `name_to_latex` (source lines 51-67): split on the first
underscore into base and subscript, look each half up in
`GREEK_LETTERS`, and emit `base_\x7bsubscript\x7d`; a name without an
underscore is looked up whole. -/
def name_to_latex (name : String) : String :=
  if name.data.contains '_' then
    greekLookup (baseOf name) ++ "_\x7b" ++ greekLookup (subOf name) ++ "\x7d"
  else
    greekLookup name

/-- Binary operator tags of `ast.BinOp` as the source distinguishes them;
`otherB` covers every operator the source's `if` chain does not name
(bit operations, matrix multiply, shifts). -/
inductive BOp where
  | add | sub | mult | div | floorDiv | pow | mod | otherB
deriving DecidableEq

/-- Unary operator tags (`ast.USub`, `ast.UAdd`, `ast.Not`, rest). -/
inductive UOp where
  | usub | uadd | notOp | otherU
deriving DecidableEq

/-- Comparison operator tags; `otherC` covers operators the source's
chain does not name (`is`, `in`, ...), for which it appends nothing. -/
inductive COp where
  | ceq | cne | clt | cgt | cle | cge | otherC
deriving DecidableEq

/-- The callee of an `ast.Call`: a plain name, an attribute access
(only the attribute name is kept), or anything else. -/
inductive CallFunc where
  | fname (s : String)
  | fattr (s : String)
  | fother
deriving DecidableEq

mutual
/-- Expression nodes, mirroring the `ast.expr` subset the source branches
on (spec section 3, "Expression Node"); `otherE` is any node kind the
renderers do not recognise (lambdas, dicts, slices, ...). -/
inductive Expr where
  | const (v : PyVal)
  | name (id : String)
  | binOp (op : BOp) (left right : Expr)
  | unaryOp (op : UOp) (operand : Expr)
  | call (f : CallFunc) (args : EList)
  | compare (left : Expr) (pairs : CList)
  | ifExp (test body orelse : Expr)
  | subscript (value : Expr) (slice : Expr)
  | listE (elts : EList)
  | tupleE (elts : EList)
  | otherE
/-- A list of expressions (call arguments, list slash tuple elements). -/
inductive EList where
  | nil
  | cons (e : Expr) (es : EList)
/-- The `(operator, comparator)` pairs of an `ast.Compare`. -/
inductive CList where
  | nil
  | cons (op : COp) (e : Expr) (es : CList)
end

/-- Function-name resolution of the symbolic renderer (source lines
138-144): plain name or attribute name, else the placeholder `func`. -/
def symFuncName : CallFunc → String
  | .fname s => s
  | .fattr s => s
  | .fother => "func"

/-- Function-name resolution of the substitution renderer (source lines
278-281): only a plain name is resolved. -/
def substFuncName : CallFunc → String
  | .fname s => s
  | _ => "func"

/-- The operator templates of the symbolic renderer (source lines
109-125), applied after parenthesization. -/
def binTemplate : BOp → String → String → String
  | .add, l, r => l ++ " + " ++ r
  | .sub, l, r => l ++ " - " ++ r
  | .mult, l, r => l ++ " \\cdot " ++ r
  | .div, l, r => "\\frac\x7b" ++ l ++ "\x7d\x7b" ++ r ++ "\x7d"
  | .floorDiv, l, r => "\\left\\lfloor\\frac\x7b" ++ l ++ "\x7d\x7b" ++ r ++ "\x7d\\right\\rfloor"
  | .pow, l, r => l ++ "^\x7b" ++ r ++ "\x7d"
  | .mod, l, r => l ++ " \\mod " ++ r
  | .otherB, l, r => l ++ " \\text\x7bop\x7d " ++ r

/-- Is this node a `BinOp` whose operator is additive (`Add` slash `Sub`)?
(the `left_paren` slash `right_paren` operand test, source lines 97-102). -/
def isAddSubBin : Expr → Bool
  | .binOp .add _ _ => true
  | .binOp .sub _ _ => true
  | _ => false

/-- Is the outer operator multiplicative or exponentiation
(`Mult` slash `Div` slash `Pow`)? -/
def isMulDivPow : BOp → Bool
  | .mult => true
  | .div => true
  | .pow => true
  | _ => false

/-- The comparison templates of the symbolic renderer (source lines
197-208); an unrecognised operator appends nothing. -/
def cmpTemplate : COp → String → String
  | .ceq, r => " = " ++ r
  | .cne, r => " \\neq " ++ r
  | .clt, r => " < " ++ r
  | .cgt, r => " > " ++ r
  | .cle, r => " \\leq " ++ r
  | .cge, r => " \\geq " ++ r
  | .otherC, _ => ""

/-- The fixed function-template table of the symbolic renderer (source
lines 149-190), dispatching on the resolved name over the already-rendered
argument strings.  `none` models the `IndexError` Python raises when a
template reads a positional argument the call does not have. -/
def symCallTemplate (fn : String) (args : List String) : Option String :=
  match fn with
  | "sqrt" => (args.get? 0).map (fun a => "\\sqrt\x7b" ++ a ++ "\x7d")
  | "abs" => (args.get? 0).map (fun a => "\\left|" ++ a ++ "\\right|")
  | "sin" | "cos" | "tan" | "cot" | "sec" | "csc" | "sinh" | "cosh" | "tanh" =>
    (args.get? 0).map (fun a => "\\" ++ fn ++ "\\left(" ++ a ++ "\\right)")
  | "asin" | "arcsin" =>
    (args.get? 0).map (fun a => "\\arcsin\\left(" ++ a ++ "\\right)")
  | "acos" | "arccos" =>
    (args.get? 0).map (fun a => "\\arccos\\left(" ++ a ++ "\\right)")
  | "atan" | "arctan" =>
    (args.get? 0).map (fun a => "\\arctan\\left(" ++ a ++ "\\right)")
  | "atan2" =>
    (args.get? 0).bind (fun a0 => (args.get? 1).map (fun a1 =>
      "\\arctan\\left(\\frac\x7b" ++ a0 ++ "\x7d\x7b" ++ a1 ++ "\x7d\\right)"))
  | "log" =>
    if args.length = 1 then
      (args.get? 0).map (fun a => "\\ln\\left(" ++ a ++ "\\right)")
    else
      (args.get? 1).bind (fun a1 => (args.get? 0).map (fun a0 =>
        "\\log_\x7b" ++ a1 ++ "\x7d\\left(" ++ a0 ++ "\\right)"))
  | "ln" => (args.get? 0).map (fun a => "\\ln\\left(" ++ a ++ "\\right)")
  | "log10" => (args.get? 0).map (fun a => "\\log_\x7b10\x7d\\left(" ++ a ++ "\\right)")
  | "log2" => (args.get? 0).map (fun a => "\\log_\x7b2\x7d\\left(" ++ a ++ "\\right)")
  | "exp" => (args.get? 0).map (fun a => "e^\x7b" ++ a ++ "\x7d")
  | "pow" =>
    (args.get? 0).bind (fun a0 => (args.get? 1).map (fun a1 => a0 ++ "^\x7b" ++ a1 ++ "\x7d"))
  | "max" => some ("\\max\\left(" ++ String.intercalate ", " args ++ "\\right)")
  | "min" => some ("\\min\\left(" ++ String.intercalate ", " args ++ "\\right)")
  | "sum" => (args.get? 0).map (fun a => "\\sum " ++ a)
  | "round" => args.get? 0
  | _ => some ("\\text\x7b" ++ fn ++ "\x7d\\left(" ++ String.intercalate ", " args ++ "\\right)")

/-- Rendering of an `ast.Constant` by the symbolic renderer (source lines
77-87): infinity literals as `\infty` slash `-\infty`, other floats via
`%g`, everything else via `str`. -/
def constLatex (v : PyVal) : String :=
  match v with
  | .vFloat .inf => "\\infty"
  | .vFloat .ninf => "-\\infty"
  | .vFloat f => gfmt f
  | v => pyStr v

mutual
/-- Embedding of `expr_to_latex` (source lines 70-231), the symbolic
renderer.  The source also threads a `namespace` argument that it never
reads; it is omitted here.  `none` models the `IndexError` of an
arity-short templated call; every other branch is total, with
unrecognised node kinds falling back to `\text\x7b?\x7d`. -/
def expr_to_latex : Expr → Option String
  | .const v => some (constLatex v)
  | .name id => some (name_to_latex id)
  | .binOp op l r => do
    let ls ← expr_to_latex l
    let rs ← expr_to_latex r
    let lp := isAddSubBin l && isMulDivPow op
    let rp := isAddSubBin r && isMulDivPow op
    let ls := if lp then "\\left(" ++ ls ++ "\\right)" else ls
    let rs := if rp && !(op = BOp.div : Bool) then "\\left(" ++ rs ++ "\\right)" else rs
    some (binTemplate op ls rs)
  | .unaryOp u o => do
    let os ← expr_to_latex o
    some (match u with
          | .usub => "-" ++ os
          | .uadd => "+" ++ os
          | .notOp => "\\neg " ++ os
          | .otherU => os)
  | .call f args => do
    let as ← elistLatex args
    symCallTemplate (symFuncName f) as
  | .compare l pairs => do
    let ls ← expr_to_latex l
    clistLatex ls pairs
  | .ifExp test body orelse => do
    let ts ← expr_to_latex test
    let bs ← expr_to_latex body
    let os ← expr_to_latex orelse
    some ("\\begin\x7bcases\x7d " ++ bs ++ " & \\text\x7bif \x7d " ++ ts ++
          " \\\\ " ++ os ++ " & \\text\x7botherwise\x7d \\end\x7bcases\x7d")
  | .subscript v sl => do
    let vs ← expr_to_latex v
    let idx ← match sl with
              | .const c => some (pyStr c)
              | _ => expr_to_latex sl
    some (vs ++ "_\x7b" ++ idx ++ "\x7d")
  | .listE elts => do
    let es ← elistLatex elts
    some ("\\left[" ++ String.intercalate ", " es ++ "\\right]")
  | .tupleE elts => do
    let es ← elistLatex elts
    some ("\\left[" ++ String.intercalate ", " es ++ "\\right]")
  | .otherE => some "\\text\x7b?\x7d"
/-- Renders each expression of a list with `expr_to_latex`. -/
def elistLatex : EList → Option (List String)
  | .nil => some []
  | .cons e es => do
    let s ← expr_to_latex e
    let ss ← elistLatex es
    some (s :: ss)
/-- Appends comparison segments to an accumulated string (the loop of
source lines 195-209; the comparator is rendered before the operator is
inspected, so its failure propagates even for unrecognised operators). -/
def clistLatex (acc : String) : CList → Option String
  | .nil => some acc
  | .cons op e es => do
    let rs ← expr_to_latex e
    clistLatex (acc ++ cmpTemplate op rs) es
end

/-- The environment: Python's execution namespace, a name-to-value map
(spec section 3, "Environment"). -/
abbrev Env : Type := List (String × PyVal)

/-- The reduced function-template table of the substitution renderer
(source lines 285-292). -/
def substCallTemplate (fn : String) (args : List String) : Option String :=
  match fn with
  | "sqrt" => (args.get? 0).map (fun a => "\\sqrt\x7b" ++ a ++ "\x7d")
  | "abs" => (args.get? 0).map (fun a => "\\left|" ++ a ++ "\\right|")
  | "sin" | "cos" | "tan" | "log" | "exp" =>
    (args.get? 0).map (fun a => "\\" ++ fn ++ "\\left(" ++ a ++ "\\right)")
  | _ => some ("\\text\x7b" ++ fn ++ "\x7d\\left(" ++ String.intercalate ", " args ++ "\\right)")

/-- The operator templates of the substitution renderer (source lines
256-269): no parenthesization, no `FloorDiv` case (it falls to the
generic `?` arm). -/
def binTemplateSub : BOp → String → String → String
  | .add, l, r => l ++ " + " ++ r
  | .sub, l, r => l ++ " - " ++ r
  | .mult, l, r => l ++ " \\cdot " ++ r
  | .div, l, r => "\\frac\x7b" ++ l ++ "\x7d\x7b" ++ r ++ "\x7d"
  | .pow, l, r => l ++ "^\x7b" ++ r ++ "\x7d"
  | .mod, l, r => l ++ " \\mod " ++ r
  | _, l, r => l ++ " ? " ++ r

mutual
/-- Embedding of `substitute_values` (source lines 234-294), the
substitution renderer.  A bound identifier renders as its current value
(`%g` for floats, `str` otherwise); `namespace.get` yields Python `None`
both for an unbound name and for a name bound to `None`, and both fall
back to the symbolic name.  Node kinds without a case here delegate to
`expr_to_latex`. -/
def substitute_values (e : Expr) (env : Env) : Option String :=
  match e with
  | .const (.vFloat f) => some (gfmt f)
  | .const v => some (pyStr v)
  | .name id =>
    match List.lookup id env with
    | none => some (name_to_latex id)
    | some .vNone => some (name_to_latex id)
    | some (.vFloat f) => some (gfmt f)
    | some v => some (pyStr v)
  | .binOp op l r => do
    let ls ← substitute_values l env
    let rs ← substitute_values r env
    some (binTemplateSub op ls rs)
  | .unaryOp u o => do
    let os ← substitute_values o env
    some (match u with
          | .usub => "-" ++ os
          | _ => os)
  | .call f args => do
    let as ← elistSubst args env
    substCallTemplate (substFuncName f) as
  | e => expr_to_latex e
/-- Renders each expression of a list with `substitute_values`. -/
def elistSubst (es : EList) (env : Env) : Option (List String) :=
  match es with
  | .nil => some []
  | .cons e es => do
    let s ← substitute_values e env
    let ss ← elistSubst es env
    some (s :: ss)
end

/-- An assignment target: a plain identifier or anything else
(tuple slash attribute slash index targets). -/
inductive Target where
  | tname (s : String)
  | tother
deriving DecidableEq

/-- Top-level statement kinds the sequencer distinguishes (spec section 6):
`ast.Assign` (with its target list), `ast.AugAssign`, and everything else
(imports, expression statements, definitions, control flow). -/
inductive Stmt where
  | assign (targets : List Target) (value : Expr)
  | augAssign (target : Target) (op : BOp) (value : Expr)
  | other

/-- Is this expression a bare literal (`ast.Constant`), the source's
`is_simple` test (line 383)? -/
def isConstE : Expr → Bool
  | .const _ => true
  | _ => false

/-- The initial execution namespace built by `python_to_latex` (source
lines 345-356).  Library functions are opaque function objects; `pi` and
`e` carry the exact rational value of the binary64 constants
`math.pi` and `math.e`; `j` is the complex unit. -/
def initialNamespace : Env :=
  [("sqrt", .vOther "<built-in function sqrt>"), ("abs", .vOther "<built-in function abs>"),
   ("sin", .vOther "<built-in function sin>"), ("cos", .vOther "<built-in function cos>"),
   ("tan", .vOther "<built-in function tan>"),
   ("asin", .vOther "<built-in function asin>"), ("acos", .vOther "<built-in function acos>"),
   ("atan", .vOther "<built-in function atan>"),
   ("sinh", .vOther "<built-in function sinh>"), ("cosh", .vOther "<built-in function cosh>"),
   ("tanh", .vOther "<built-in function tanh>"),
   ("log", .vOther "<built-in function log>"), ("log10", .vOther "<built-in function log10>"),
   ("exp", .vOther "<built-in function exp>"),
   ("pi", .vFloat (.finite (Rat.divInt 884279719003555 281474976710656))),
   ("e", .vFloat (.finite (Rat.divInt 6121026514868073 2251799813685248))),
   ("j", .vComplex (.finite 0) (.finite 1)),
   ("max", .vOther "<built-in function max>"), ("min", .vOther "<built-in function min>"),
   ("round", .vOther "<built-in function round>"), ("pow", .vOther "<built-in function pow>")]

/-- The body of the non-trivial branch of the statement loop (source lines
389-406): build the enabled parts (symbolic; substituted, only when the
symbolic part is absent or differs textually — the source recomputes
`expr_to_latex` for this comparison; result value) and join them after
`identifier &= `. -/
def nonTrivialLine (sy su re : Bool) (env : Env) (expr : Expr)
    (varLatex valueStr : String) : Option String := do
  let symParts ← if sy then (expr_to_latex expr).map (fun s => [s]) else some []
  let subParts ← if su then
      (substitute_values expr env).bind (fun sub =>
        if sy then (expr_to_latex expr).map (fun sym2 => if sub ≠ sym2 then [sub] else [])
        else some [sub])
    else some []
  let resParts := if re then [valueStr] else []
  some (varLatex ++ " &= " ++ String.intercalate " = " (symParts ++ subParts ++ resParts))

/-- One iteration of the statement loop of `python_to_latex` (source lines
361-432) on one statement.  The outer `Option` is an uncaught exception
(a renderer slash formatter failure); the inner option is the produced
line, `none` when the statement is skipped.  `eval` is the external
evaluator (`exec` against the namespace); on its failure the statement is
dropped and the environment kept (spec section 9's rollback assumption).
A successful `exec` of an assignment binds the target, so the subsequent
`namespace[var_name]` lookup is inside the same `try`: its failure also
skips the statement, keeping the mutated environment. -/
def stepStmt (eval : Env → Stmt → Option Env) (sy su re : Bool)
    (env : Env) (st : Stmt) : Option (Option (String × Bool) × Env) :=
  match st with
  | .assign [.tname v] expr =>
    match eval env (.assign [.tname v] expr) with
    | none => some (none, env)
    | some env' =>
      match List.lookup v env' with
      | none => some (none, env')
      | some value => do
        let valueStr ← format_value value
        let varLatex := name_to_latex v
        if isConstE expr then
          some (some (varLatex ++ " &= " ++ valueStr, true), env')
        else do
          let line ← nonTrivialLine sy su re env' expr varLatex valueStr
          some (some (line, false), env')
  | .assign _ _ => some (none, env)
  | .augAssign (.tname v) op expr =>
    match eval env (.augAssign (.tname v) op expr) with
    | none => some (none, env)
    | some env' =>
      match List.lookup v env' with
      | none => some (none, env')
      | some value => do
        let valueStr ← format_value value
        some (some (name_to_latex v ++ " &= " ++ valueStr, true), env')
  | .augAssign _ _ _ => some (none, env)
  | .other => some (none, env)

/-- The statement loop: processes statements in order, accumulating the
`(line, is_simple)` pairs (the source's two parallel lists
`latex_lines` slash `simple_assignments`) and threading the environment. -/
def processStmts (eval : Env → Stmt → Option Env) (sy su re : Bool)
    (env : Env) : List Stmt → Option (List (String × Bool) × Env)
  | [] => some ([], env)
  | st :: rest => do
    let (lineOpt, env') ← stepStmt eval sy su re env st
    let (ls, envF) ← processStmts eval sy su re env' rest
    some ((match lineOpt with
           | some l => l :: ls
           | none => ls), envF)

/-- The row-break interleaving of the line assembler (source lines
437-445), carrying the previous line's `is_simple` flag. -/
def rowsAux : Bool → List (String × Bool) → List String
  | _, [] => []
  | prev, (l, s) :: rest =>
    (if prev && !s then "\\\\[10pt]" else "\\\\") :: l :: rowsAux s rest

/-- Embedding of the line assembler (source lines 435-450): wrap the
break-interleaved lines in an `aligned` environment; no lines yield the
empty string. -/
def assembleLines : List (String × Bool) → String
  | [] => ""
  | (l, s) :: rest =>
    "\\begin\x7baligned\x7d\n" ++ String.intercalate "\n" (l :: rowsAux s rest) ++
      "\n\\end\x7baligned\x7d"

/-- Embedding of `python_to_latex` (source lines 326-450) over an
already-parsed statement list (parsing is the external parser's concern,
spec section 1) and an external evaluator.  Returns the assembled LaTeX
block and the final namespace; `none` models an exception escaping the
function. -/
def python_to_latex (eval : Env → Stmt → Option Env) (sy su re : Bool)
    (stmts : List Stmt) : Option (String × Env) := do
  let (lines, env) ← processStmts eval sy su re initialNamespace stmts
  some (assembleLines lines, env)

/-- `List.get?` is defined on every index below the length. -/
theorem getQSome {α : Type} (l : List α) (n : Nat) (h : n < l.length) : (l.get? n).isSome := by
  rw [List.get?_eq_get h]
  rfl

/-- A successful association-list lookup exhibits a member of the list. -/
theorem lookupMem {β : Type} (l : List (String × β)) (a : String) (b : β)
    (h : List.lookup a l = some b) : (a, b) ∈ l := by
  induction l with
  | nil => simp [List.lookup] at h
  | cons hd tl ih =>
    rw [List.lookup] at h
    by_cases hb : (a == hd.1) = true
    · rw [hb] at h
      injection h with h
      subst h
      have hae : a = hd.1 := eq_of_beq hb
      cases hd with
      | mk k v =>
        simp only at hae
        subst hae
        exact List.mem_cons_self _ _
    · rw [Bool.not_eq_true] at hb
      rw [hb] at h
      right
      exact ih h

/-- The digit list of a natural number is never empty. -/
theorem natDigs_ne_nil (n : Nat) : natDigs n ≠ [] := by
  unfold natDigs natDigsAux
  split
  · simp
  · simp

/-- General ("g") formatting never produces an empty digit string. -/
theorem fmtGPL_ne_nil (p : Nat) (q : ℚ) : fmtGPL p q ≠ [] := by
  unfold fmtGPL
  split
  · simp
  · dsimp only
    split
    · split
      · intro hc
        rcases List.append_eq_nil.mp hc with ⟨h1, _⟩
        rcases List.append_eq_nil.mp h1 with ⟨_, h3⟩
        rw [List.take_eq_nil_iff] at h3
        rcases h3 with h3 | h3
        · exact Nat.succ_ne_zero _ h3
        · exact natDigs_ne_nil _ h3
      · intro hc
        rcases List.append_eq_nil.mp hc with ⟨_, h2⟩
        exact List.cons_ne_nil _ _ h2
    · intro hc
      rcases List.append_eq_nil.mp hc with ⟨_, h2⟩
      exact List.cons_ne_nil _ _ h2

/-- `%g` formatting of a float never yields the empty string. -/
theorem gfmt_ne_empty (f : PFloat) : gfmt f ≠ "" := by
  cases f with
  | finite q =>
    simp only [gfmt, fmtGP]
    intro hc
    have : fmtGPL 6 q = [] := by
      have := congrArg String.data hc
      simpa using this
    exact fmtGPL_ne_nil 6 q this
  | inf => simp [gfmt]
  | ninf => simp [gfmt]
  | nan => simp [gfmt]

/-- C6: for every name string, the identifier renderer is total: a name
with an underscore is split on the first underscore only into base and
subscript, each half is looked up case-sensitively in the static
Greek-letter table (substituted if present, else kept literally), and the
result is the base followed by the braced subscript; a name without an
underscore is looked up whole and otherwise returned unchanged.  In
particular `Gamma_L` renders as `\Gamma_\x7bL\x7d`, `V_in` as
`V_\x7bin\x7d`, and `inf` alone as `\infty`. -/
theorem c6_identifier_rendering :
    (∀ n : String, n.data.contains '_' = true →
      name_to_latex n =
        greekLookup (baseOf n) ++ "_\x7b" ++ greekLookup (subOf n) ++ "\x7d") ∧
    (∀ n : String, n.data.contains '_' = false → name_to_latex n = greekLookup n) ∧
    name_to_latex "Gamma_L" = "\\Gamma_\x7bL\x7d" ∧
    name_to_latex "V_in" = "V_\x7bin\x7d" ∧
    name_to_latex "inf" = "\\infty" ∧
    name_to_latex "gamma" = "\\gamma" ∧
    name_to_latex "Gamma" = "\\Gamma" ∧
    name_to_latex "V" = "V" ∧
    baseOf "a_b_c" = "a" ∧ subOf "a_b_c" = "b_c" := by
  refine ⟨?_, ?_, by decide, by decide, by decide, by decide, by decide, by decide,
    by decide, by decide⟩
  · intro n h
    simp only [name_to_latex, h, if_true]
  · intro n h
    simp only [name_to_latex, h, Bool.false_eq_true, if_false]

/-- Witness for C6, instantiating the two conditional clauses at the
names `Gamma_L` and `inf`. -/
theorem c6_identifier_rendering_witness :
    name_to_latex "Gamma_L" =
      greekLookup (baseOf "Gamma_L") ++ "_\x7b" ++ greekLookup (subOf "Gamma_L") ++ "\x7d" ∧
    name_to_latex "inf" = greekLookup "inf" :=
  ⟨c6_identifier_rendering.1 "Gamma_L" (by decide),
   c6_identifier_rendering.2.1 "inf" (by decide)⟩

/-- C10: a name bound to Python `None` renders in the substitution
renderer exactly like an unbound name — as the symbolic LaTeX name —
because `namespace.get` returns `None` in both cases. -/
theorem c10_none_binding :
    (∀ (env : Env) (n : String), List.lookup n env = some PyVal.vNone →
      substitute_values (.name n) env = some (name_to_latex n)) ∧
    (∀ (env : Env) (n : String), List.lookup n env = none →
      substitute_values (.name n) env = some (name_to_latex n)) := by
  constructor <;> intro env n h <;> simp [substitute_values, h]

/-- Witness for C10: the binding `x ↦ None` and the empty environment
render identically. -/
theorem c10_none_binding_witness :
    substitute_values (.name "x") [("x", PyVal.vNone)] = some (name_to_latex "x") ∧
    substitute_values (.name "x") [] = some (name_to_latex "x") :=
  ⟨c10_none_binding.1 [("x", PyVal.vNone)] "x" (by decide),
   c10_none_binding.2 [] "x" (by decide)⟩

/-- Counterexample to C2: the substitution renderer does not delegate to
the Value Formatter for bound identifiers; a name bound to the boolean
`True` renders as Python `str(True) = True`, while `format_value` renders
the same value as `\text\x7bTrue\x7d`. -/
theorem c2_counterexample :
    substitute_values (.name "x") [("x", PyVal.vBool true)] = some "True" ∧
    format_value (PyVal.vBool true) = some "\\text\x7bTrue\x7d" ∧
    substitute_values (.name "x") [("x", PyVal.vBool true)] ≠
      format_value (PyVal.vBool true) := by
  refine ⟨by decide, by decide, by decide⟩

/-- C2 as amended: a bound identifier renders as `%g` general formatting
for a float value and as Python `str` for any other non-`None` value
(so a bound boolean renders `True` slash `False`, a bound complex in
Python's parenthesised `repr` form); an unbound identifier (or one bound
to `None`) renders as its symbolic LaTeX name. -/
theorem c2_amended_leaf_rendering :
    (∀ (env : Env) (n : String) (f : PFloat),
      List.lookup n env = some (.vFloat f) →
      substitute_values (.name n) env = some (gfmt f)) ∧
    (∀ (env : Env) (n : String) (v : PyVal),
      List.lookup n env = some v → (∀ f, v ≠ .vFloat f) → v ≠ .vNone →
      substitute_values (.name n) env = some (pyStr v)) ∧
    (∀ (env : Env) (n : String), List.lookup n env = none →
      substitute_values (.name n) env = some (name_to_latex n)) := by
  refine ⟨?_, ?_, ?_⟩
  · intro env n f h
    simp [substitute_values, h]
  · intro env n v h hf hn
    cases v with
    | vFloat f => exact absurd rfl (hf f)
    | vNone => exact absurd rfl hn
    | vInt k => simp [substitute_values, h, pyStr]
    | vComplex re im => simp [substitute_values, h, pyStr]
    | vBool b => simp [substitute_values, h, pyStr]
    | vStr s => simp [substitute_values, h, pyStr]
    | vOther s => simp [substitute_values, h, pyStr]
  · intro env n h
    simp [substitute_values, h]

/-- Witness for C2 as amended: a bound float, a bound boolean, a bound
complex, and an unbound name, each at a concrete environment. -/
theorem c2_amended_leaf_rendering_witness :
    substitute_values (.name "y") [("y", .vFloat (.finite (Rat.divInt 1 2)))] =
      some (gfmt (.finite (Rat.divInt 1 2))) ∧
    substitute_values (.name "x") [("x", PyVal.vBool true)] = some (pyStr (.vBool true)) ∧
    substitute_values (.name "z") [("z", .vComplex (.finite 3) (.finite 1))] =
      some (pyStr (.vComplex (.finite 3) (.finite 1))) ∧
    substitute_values (.name "w") [] = some (name_to_latex "w") :=
  ⟨c2_amended_leaf_rendering.1 [("y", .vFloat (.finite (Rat.divInt 1 2)))] "y" _ (by decide),
   c2_amended_leaf_rendering.2.1 [("x", PyVal.vBool true)] "x" _ (by decide)
     (by intro f hc; cases hc) (by intro hc; cases hc),
   c2_amended_leaf_rendering.2.1 [("z", .vComplex (.finite 3) (.finite 1))] "z" _ (by decide)
     (by intro f hc; cases hc) (by intro hc; cases hc),
   c2_amended_leaf_rendering.2.2 [] "w" (by decide)⟩

/-- The parenthesization rule as the spec words it (section 4.3): wrap an
operand iff it is an additive BinaryOp and the outer operator is
multiplicative or exponentiation, except the right operand of a
division. -/
def parenSpec (outer : BOp) (operand : Expr) (isRight : Bool) : Bool :=
  isAddSubBin operand && isMulDivPow outer && !(isRight && (outer = BOp.div : Bool))

/-- Wraps a rendered operand in `\left(...\right)` when the flag holds. -/
def wrapIf (b : Bool) (s : String) : String :=
  if b then "\\left(" ++ s ++ "\\right)" else s

/-- C3: the symbolic renderer parenthesizes a `BinaryOp` operand exactly
under the spec's rule (`parenSpec`): operand additive and outer operator
in slash-multiply-power, except never the right operand of a division; in
particular the additive left operand of `*` and `/` is wrapped while an
additive denominator is not. -/
theorem c3_binop_parenthesization :
    (∀ (op : BOp) (l r : Expr) (ls rs : String),
      expr_to_latex l = some ls → expr_to_latex r = some rs →
      expr_to_latex (.binOp op l r) =
        some (binTemplate op (wrapIf (parenSpec op l false) ls)
          (wrapIf (parenSpec op r true) rs))) ∧
    expr_to_latex (.binOp .mult (.binOp .add (.name "a") (.name "b")) (.name "c")) =
      some "\\left(a + b\\right) \\cdot c" ∧
    expr_to_latex (.binOp .div (.binOp .add (.name "a") (.name "b")) (.name "c")) =
      some "\\frac\x7b\\left(a + b\\right)\x7d\x7bc\x7d" ∧
    expr_to_latex (.binOp .div (.name "a") (.binOp .add (.name "b") (.name "c"))) =
      some "\\frac\x7ba\x7d\x7bb + c\x7d" := by
  refine ⟨?_, by decide, by decide, by decide⟩
  intro op l r ls rs hl hr
  simp only [expr_to_latex, hl, hr, Option.bind_eq_bind, Option.some_bind, parenSpec, wrapIf,
    Bool.false_and, Bool.not_false, Bool.and_true, Bool.true_and]

/-- Witness for C3, instantiating the general clause at
`(a - b) ** c`. -/
theorem c3_binop_parenthesization_witness :
    expr_to_latex (.binOp .pow (.binOp .sub (.name "a") (.name "b")) (.name "c")) =
      some (binTemplate .pow
        (wrapIf (parenSpec .pow (.binOp .sub (.name "a") (.name "b")) false) "a - b")
        (wrapIf (parenSpec .pow (.name "c") true) "c")) :=
  c3_binop_parenthesization.1 .pow _ _ "a - b" "c" (by decide) (by decide)

/-- The complex-value rendering exactly as the spec words it (section
4.2): format the two parts separately, omit a zero real part, render the
imaginary unit as `j` with bare `j` slash `-j` for imaginary part exactly
plus slash minus one, and join with ` + ` when the imaginary part is
non-negative and a real part is present, with a single space otherwise. -/
def complexFormatSpec (re im : PFloat) : String :=
  let imagStr := if pfloatEqInt im 1 then "j"
                 else if pfloatEqInt im (-1) then "-j"
                 else gfmt im ++ "j"
  if pfloatIsZero re then imagStr
  else if pfloatNonneg im then gfmt re ++ " + " ++ imagStr
  else gfmt re ++ " " ++ imagStr

/-- C4: `format_value` renders every complex value exactly as
`complexFormatSpec` describes; in particular `3+1j` formats as `3 + j`,
`0-2j` as `-2j`, and `-1-1j` as `-1 -j`. -/
theorem c4_complex_formatting :
    (∀ re im : PFloat, format_value (.vComplex re im) = some (complexFormatSpec re im)) ∧
    format_value (.vComplex (.finite 3) (.finite 1)) = some "3 + j" ∧
    format_value (.vComplex (.finite 0) (.finite (-2))) = some "-2j" ∧
    format_value (.vComplex (.finite (-1)) (.finite (-1))) = some "-1 -j" := by
  refine ⟨?_, by decide, by decide, by decide⟩
  intro re im
  by_cases hz : pfloatIsZero re = true
  · simp [format_value, complexFormatSpec, hz]
  · rw [Bool.not_eq_true] at hz
    have hne : gfmt re ≠ "" := gfmt_ne_empty re
    by_cases hnn : pfloatNonneg im = true
    · simp [format_value, complexFormatSpec, hz, hnn, hne]
    · rw [Bool.not_eq_true] at hnn
      simp [format_value, complexFormatSpec, hz, hnn, hne]

/-- The row break between consecutive lines as the spec words it: the
wider break exactly when the previous line is trivial and the current one
is not. -/
def specBreak (prevSimple curSimple : Bool) : String :=
  if prevSimple && !curSimple then "\\\\[10pt]" else "\\\\"

/-- The assembled row list as the spec words it: each consecutive pair of
lines contributes its break followed by the second line. -/
def specRows : List (String × Bool) → List String
  | [] => []
  | x :: xs =>
    x.1 :: (List.zip (x :: xs) xs).flatMap (fun pq => [specBreak pq.1.2 pq.2.2, pq.2.1])

/-- The assembler's recursion produces exactly the pairwise-break rows. -/
theorem rowsAux_spec (xs : List (String × Bool)) :
    ∀ (l : String) (s : Bool), specRows ((l, s) :: xs) = l :: rowsAux s xs := by
  induction xs with
  | nil => intro l s; simp [specRows, rowsAux]
  | cons hd tl ih =>
    intro l s
    cases hd with
    | mk l2 s2 =>
      have h2 := ih l2 s2
      simp only [specRows, List.zip_cons_cons, List.flatMap_cons, List.cons_append,
        List.nil_append] at h2 ⊢
      rw [List.cons.injEq] at h2
      rw [h2.2]
      simp [rowsAux, specBreak]

/-- C9: the assembled block inserts the wider row break between
consecutive lines exactly when the previous line is trivial and the
current one is non-trivial (all other joins use the normal break), wraps
everything in a LaTeX `aligned` environment, and produces the empty
string for an empty record list. -/
theorem c9_line_assembly :
    (∀ lines : List (String × Bool),
      assembleLines lines =
        if lines = [] then ""
        else "\\begin\x7baligned\x7d\n" ++ String.intercalate "\n" (specRows lines) ++
          "\n\\end\x7baligned\x7d") ∧
    assembleLines [] = "" ∧
    assembleLines [("x &= 5", true), ("z &= x + y = 15", false), ("w &= 2", true)] =
      "\\begin\x7baligned\x7d\nx &= 5\n\\\\[10pt]\nz &= x + y = 15\n\\\\\nw &= 2\n\\end\x7baligned\x7d" := by
  refine ⟨?_, by decide, by decide⟩
  intro lines
  cases lines with
  | nil => simp [assembleLines]
  | cons hd tl =>
    cases hd with
    | mk l s =>
      rw [rowsAux_spec]
      simp [assembleLines]

/-- C8: for a non-trivial assignment line, the substituted rendering is
included as a part exactly when it differs textually from the symbolic
rendering, or unconditionally when the symbolic part is disabled; the
enabled parts among symbolic, substituted and result value are joined
with ` = ` after `identifier &= `. -/
theorem c8_substitution_inclusion :
    ∀ (sy su re : Bool) (env : Env) (e : Expr) (vlat vstr s t : String),
      expr_to_latex e = some s → substitute_values e env = some t →
      nonTrivialLine sy su re env e vlat vstr =
        some (vlat ++ " &= " ++ String.intercalate " = "
          ((if sy then [s] else []) ++
           (if su && (!sy || t != s) then [t] else []) ++
           (if re then [vstr] else []))) := by
  intro sy su re env e vlat vstr s t hs ht
  cases sy <;> cases su <;> cases re <;>
    by_cases hts : t = s <;>
      simp [nonTrivialLine, hs, ht, hts]

/-- Witness for C8 at a concrete expression and environment: `x + y`
with `x ↦ 5`, all three parts enabled; the substituted part `5 + y`
differs from the symbolic `x + y`, so all three appear. -/
theorem c8_substitution_inclusion_witness :
    nonTrivialLine true true true [("x", PyVal.vInt 5)]
      (.binOp .add (.name "x") (.name "y")) "z" "15" =
      some "z &= x + y = 5 + y = 15" :=
  (c8_substitution_inclusion true true true [("x", PyVal.vInt 5)]
    (.binOp .add (.name "x") (.name "y")) "z" "15" "x + y" "5 + y"
    (by decide) (by decide)).trans (by decide)

/-- A concrete external evaluator used to ground the theorems: it
executes exactly the literal assignments (`x = <constant>`), binding the
constant onto the namespace, and raises on everything else. -/
def litEval : Env → Stmt → Option Env := fun env st =>
  match st with
  | .assign [.tname v] (.const c) => some ((v, c) :: env)
  | _ => none

/-- Statement processing splits over list concatenation. -/
theorem processStmts_append (eval : Env → Stmt → Option Env) (sy su re : Bool) :
    ∀ (xs ys : List Stmt) (env : Env),
      processStmts eval sy su re env (xs ++ ys) =
        (processStmts eval sy su re env xs).bind (fun p1 =>
          (processStmts eval sy su re p1.2 ys).map (fun p2 => (p1.1 ++ p2.1, p2.2))) := by
  intro xs
  induction xs with
  | nil =>
    intro ys env
    simp only [List.nil_append, processStmts, Option.some_bind]
    cases processStmts eval sy su re env ys with
    | none => rfl
    | some p => rfl
  | cons st rest ih =>
    intro ys env
    simp only [List.cons_append, processStmts, Option.bind_eq_bind]
    cases stepStmt eval sy su re env st with
    | none => rfl
    | some p =>
      cases p with
      | mk lineOpt envA =>
        simp only [Option.some_bind, List.append_eq, ih ys envA]
        cases processStmts eval sy su re envA rest with
        | none => rfl
        | some pr =>
          cases pr with
          | mk ls envF =>
            simp only [Option.some_bind]
            cases processStmts eval sy su re envF ys with
            | none => rfl
            | some p2 =>
              cases lineOpt with
              | none => rfl
              | some l => simp

/-- A statement the sequencer would evaluate: a single-target assignment
to a plain identifier, or an augmented assignment to a plain identifier. -/
def isEvalAssign (st : Stmt) : Prop :=
  (∃ v e, st = Stmt.assign [.tname v] e) ∨
  (∃ v op e, st = Stmt.augAssign (.tname v) op e)

/-- C7: an assignment whose evaluation raises produces no record and no
line, surfaces no error, and leaves the processing of every other
statement unchanged: processing `pre ++ [st] ++ post` equals processing
`pre ++ post` whenever the evaluator fails on `st` in the environment
reached after `pre`. -/
theorem c7_skip_on_failure :
    ∀ (eval : Env → Stmt → Option Env) (sy su re : Bool) (env0 : Env)
      (pre post : List Stmt) (st : Stmt) (l1 : List (String × Bool)) (e1 : Env),
      processStmts eval sy su re env0 pre = some (l1, e1) →
      isEvalAssign st → eval e1 st = none →
      processStmts eval sy su re env0 (pre ++ st :: post) =
        processStmts eval sy su re env0 (pre ++ post) := by
  intro eval sy su re env0 pre post st l1 e1 hpre hshape hfail
  rw [processStmts_append, processStmts_append, hpre]
  simp only [Option.some_bind]
  have hstep : stepStmt eval sy su re e1 st = some (none, e1) := by
    rcases hshape with ⟨v, e, rfl⟩ | ⟨v, op, e, rfl⟩
    · simp only [stepStmt, hfail]
    · simp only [stepStmt, hfail]
  have hhead : processStmts eval sy su re e1 (st :: post) =
      processStmts eval sy su re e1 post := by
    simp only [processStmts, hstep, Option.bind_eq_bind, Option.some_bind]
    cases processStmts eval sy su re e1 post with
    | none => rfl
    | some p => rfl
  rw [hhead]

/-- Witness for C7: with the literal-only evaluator, the failing
assignment `x = q` (an unbound name) disappears from a run between two
literal assignments. -/
theorem c7_skip_on_failure_witness :
    processStmts litEval true true true []
      ([Stmt.assign [.tname "a"] (.const (.vInt 2))] ++
        Stmt.assign [.tname "x"] (.name "q") ::
        [Stmt.assign [.tname "b"] (.const (.vInt 3))]) =
      processStmts litEval true true true []
        ([Stmt.assign [.tname "a"] (.const (.vInt 2))] ++
          [Stmt.assign [.tname "b"] (.const (.vInt 3))]) :=
  c7_skip_on_failure litEval true true true []
    [Stmt.assign [.tname "a"] (.const (.vInt 2))]
    [Stmt.assign [.tname "b"] (.const (.vInt 3))]
    (Stmt.assign [.tname "x"] (.name "q"))
    [("a &= 2", true)] [("a", PyVal.vInt 2)]
    (by decide) (Or.inl ⟨"x", .name "q", rfl⟩) (by decide)

/-- A rational times its denominator is its numerator. -/
theorem rat_mul_den (q : ℚ) : (q : ℚ) * (q.den : ℚ) = (q.num : ℚ) := by
  have h0 : (q.den : ℚ) ≠ 0 := by exact_mod_cast q.den_pos.ne'
  nth_rewrite 1 [← Rat.num_div_den q]
  exact div_mul_cancel₀ _ h0

theorem sub_int_eq (q : ℚ) (N : ℤ) :
    q - (N : ℚ) = ((q.num - N * q.den : ℤ) : ℚ) / (q.den : ℚ) := by
  have h0 : (q.den : ℚ) ≠ 0 := by exact_mod_cast q.den_pos.ne'
  rw [eq_div_iff h0]
  push_cast
  rw [sub_mul, rat_mul_den]

theorem nearIntTest_iff (q : ℚ) (N : ℤ) :
    nearIntTest q N = true ↔ |q - (N : ℚ)| < 1 / 10 ^ 10 := by
  have hden : (0 : ℚ) < (q.den : ℚ) := by exact_mod_cast q.den_pos
  rw [nearIntTest, decide_eq_true_eq, sub_int_eq, abs_div, abs_of_pos hden,
    div_lt_div_iff₀ hden (by norm_num : (0 : ℚ) < 10 ^ 10), one_mul]
  rw [← Int.cast_abs, Int.abs_eq_natAbs]
  constructor <;> intro h <;> exact_mod_cast h

theorem bankRound_eq_of_near (q : ℚ) (N : ℤ) (h : |q - (N : ℚ)| < 1 / 10 ^ 10) :
    bankRound q = N := by
  have hden : (0 : ℚ) < (q.den : ℚ) := by exact_mod_cast q.den_pos
  have hdenz : (0 : ℤ) < (q.den : ℤ) := by exact_mod_cast q.den_pos
  rw [abs_lt] at h
  have hremQ : ∀ M : ℤ, ((q.num - q.den * M : ℤ) : ℚ) = (q.den : ℚ) * (q - M) := by
    intro M
    push_cast
    rw [mul_sub, mul_comm ((q.den : ℚ)) q, rat_mul_den]
  rcases le_or_lt (N : ℚ) q with hle | hlt
  · have hfl : ⌊q⌋ = N := by
      rw [Int.floor_eq_iff]
      constructor
      · exact hle
      · push_cast
        linarith [h.2]
    have hdiv : q.num / (q.den : ℤ) = N := by rw [← Rat.floor_def, hfl]
    have hrem : q.num % (q.den : ℤ) = q.num - q.den * N := by
      rw [Int.emod_def, hdiv]
    have hcond : 2 * (q.num % (q.den : ℤ)) < (q.den : ℤ) := by
      have hQ : (2 : ℚ) * ((q.num - q.den * N : ℤ) : ℚ) < (q.den : ℚ) := by
        rw [hremQ]
        have h1 : (q.den : ℚ) * (q - N) < (q.den : ℚ) * (1 / 10 ^ 10) := by
          apply mul_lt_mul_of_pos_left h.2 hden
        have h2 : (1 : ℚ) ≤ (q.den : ℚ) := by
          exact_mod_cast q.den_pos
        nlinarith
      rw [hrem]
      exact_mod_cast hQ
    unfold bankRound bankRoundPair
    simp only [hcond, if_true, hdiv]
  · have hfl : ⌊q⌋ = N - 1 := by
      rw [Int.floor_eq_iff]
      constructor
      · push_cast
        linarith [h.1]
      · push_cast
        linarith
    have hdiv : q.num / (q.den : ℤ) = N - 1 := by rw [← Rat.floor_def, hfl]
    have hrem : q.num % (q.den : ℤ) = q.num - q.den * (N - 1) := by
      rw [Int.emod_def, hdiv]
    have hcond : (q.den : ℤ) < 2 * (q.num % (q.den : ℤ)) := by
      have hQ : (q.den : ℚ) < 2 * ((q.num - q.den * (N - 1) : ℤ) : ℚ) := by
        rw [hremQ]
        have h2 : (1 : ℚ) ≤ (q.den : ℚ) := by exact_mod_cast q.den_pos
        push_cast
        nlinarith [h.1]
      rw [hrem]
      exact_mod_cast hQ
    have hncond : ¬(2 * (q.num % (q.den : ℤ)) < (q.den : ℤ)) := by
      exact not_lt.mpr (le_of_lt hcond)
    unfold bankRound bankRoundPair
    simp only [hncond, if_false, hcond, if_true, hdiv]
    ring

/-- C5: a finite real value within `1e-10` of an integer `N` formats as
the bare decimal string of `N` (no decimal point); any other finite real
formats with 6 significant figures in general numeric notation (trailing
zeros and unnecessary decimal points stripped), as witnessed by
`1/3 ↦ 0.333333` and `1/8 ↦ 0.125`. -/
theorem c5_integer_snap :
    (∀ (q : ℚ) (N : ℤ), |q - (N : ℚ)| < 1 / 10 ^ 10 →
      format_value (.vFloat (.finite q)) = some (intStr N)) ∧
    (∀ q : ℚ, (∀ N : ℤ, ¬ |q - (N : ℚ)| < 1 / 10 ^ 10) →
      format_value (.vFloat (.finite q)) = some (fmtGP 6 q)) ∧
    fmtGP 6 (Rat.divInt 1 3) = "0.333333" ∧
    fmtGP 6 (Rat.divInt 1 8) = "0.125" ∧
    intStr 5 = "5" ∧ intStr (-17) = "-17" := by
  refine ⟨?_, ?_, by decide, by decide, by decide, by decide⟩
  · intro q N h
    have hbr : bankRound q = N := bankRound_eq_of_near q N h
    have htest : nearIntTest q N = true := (nearIntTest_iff q N).mpr h
    simp only [format_value, hbr, htest, if_true]
  · intro q h
    have htest : nearIntTest q (bankRound q) = false := by
      rw [← Bool.not_eq_true]
      intro hc
      exact h (bankRound q) ((nearIntTest_iff q (bankRound q)).mp hc)
    simp only [format_value, htest, Bool.false_eq_true, if_false]

/-- Witness for C5: `5.00000000001` (within `1e-11` of 5) snaps to `5`;
`1/2` is not near any integer and formats as `0.5`. -/
theorem c5_integer_snap_witness :
    format_value (.vFloat (.finite (Rat.divInt 500000000001 100000000000))) = some "5" ∧
    format_value (.vFloat (.finite (Rat.divInt 1 2))) = some (fmtGP 6 (Rat.divInt 1 2)) ∧
    fmtGP 6 (Rat.divInt 1 2) = "0.5" := by
  refine ⟨?_, ?_, by decide⟩
  · have h := c5_integer_snap.1 (Rat.divInt 500000000001 100000000000) 5 (by
      rw [Rat.divInt_eq_div, abs_lt]
      constructor <;> norm_num)
    exact h.trans (by decide)
  · apply c5_integer_snap.2.1
    intro N
    rw [Rat.divInt_eq_div, abs_lt]
    intro hc
    rcases le_or_lt N 0 with hN | hN
    · have hNq : (N : ℚ) ≤ 0 := by exact_mod_cast hN
      have := hc.2
      linarith
    · have hNq : (1 : ℚ) ≤ (N : ℚ) := by exact_mod_cast hN
      have := hc.1
      linarith

/-- Does the symbolic template table read only existing positional
arguments for a call of resolved name `fn` with `n` arguments?
(`atan2` and `pow` consume two, the other special templates one, the
generic template any number).  The substitution table's needs are a
subset of these. -/
def symArity (fn : String) (n : Nat) : Bool :=
  match fn with
  | "atan2" | "pow" => decide (2 ≤ n)
  | "sqrt" | "abs" | "sin" | "cos" | "tan" | "cot" | "sec" | "csc"
  | "sinh" | "cosh" | "tanh" | "asin" | "arcsin" | "acos" | "arccos"
  | "atan" | "arctan" | "log" | "ln" | "log10" | "log2" | "exp"
  | "sum" | "round" => decide (1 ≤ n)
  | _ => true

/-- The number of expressions in an expression list. -/
def elistLen : EList → Nat
  | .nil => 0
  | .cons _ es => elistLen es + 1

mutual
/-- Every call in the expression supplies enough positional arguments for
its template. -/
def argsOkE : Expr → Bool
  | .const _ => true
  | .name _ => true
  | .binOp _ l r => argsOkE l && argsOkE r
  | .unaryOp _ o => argsOkE o
  | .call f args => symArity (symFuncName f) (elistLen args) && argsOkEL args
  | .compare l pairs => argsOkE l && argsOkCL pairs
  | .ifExp t b o => argsOkE t && argsOkE b && argsOkE o
  | .subscript v sl => argsOkE v && argsOkE sl
  | .listE elts => argsOkEL elts
  | .tupleE elts => argsOkEL elts
  | .otherE => true
/-- `argsOkE` over an expression list. -/
def argsOkEL : EList → Bool
  | .nil => true
  | .cons e es => argsOkE e && argsOkEL es
/-- `argsOkE` over comparison pairs. -/
def argsOkCL : CList → Bool
  | .nil => true
  | .cons _ e es => argsOkE e && argsOkCL es
end


/-- The symbolic template table succeeds whenever the call supplies
enough positional arguments for its resolved name. -/
theorem symCallTemplate_total (fn : String) (args : List String)
    (h : symArity fn args.length = true) : (symCallTemplate fn args).isSome := by
  have hsome : ∀ k : Nat, k < args.length → ∃ a, args.get? k = some a := fun k hk =>
    Option.isSome_iff_exists.mp (getQSome args k hk)
  unfold symCallTemplate
  split
  all_goals try rfl
  all_goals try (obtain ⟨a, ha⟩ := hsome 0 (of_decide_eq_true h); rw [ha]; rfl)
  all_goals try (have h2 : 2 ≤ args.length := of_decide_eq_true h;
                 obtain ⟨a0, h0⟩ := hsome 0 (by omega);
                 obtain ⟨a1, h1⟩ := hsome 1 (by omega);
                 rw [h0, h1]; rfl)
  · have hn : 1 ≤ args.length := of_decide_eq_true h
    split
    · obtain ⟨a, ha⟩ := hsome 0 (by omega)
      rw [ha]; rfl
    · rename_i hlen
      have h2 : 2 ≤ args.length := by omega
      obtain ⟨a0, h0⟩ := hsome 0 (by omega)
      obtain ⟨a1, h1⟩ := hsome 1 (by omega)
      rw [h0, h1]; rfl

/-- The substitution template table succeeds under the same arity bound
(its needs are a subset of the symbolic table's). -/
theorem substCallTemplate_total (fn : String) (args : List String)
    (h : symArity fn args.length = true) : (substCallTemplate fn args).isSome := by
  have hsome : ∀ k : Nat, k < args.length → ∃ a, args.get? k = some a := fun k hk =>
    Option.isSome_iff_exists.mp (getQSome args k hk)
  unfold substCallTemplate
  split
  all_goals try rfl
  all_goals (obtain ⟨a, ha⟩ := hsome 0 (of_decide_eq_true h); rw [ha]; rfl)

mutual
/-- The symbolic renderer is total on expressions whose calls supply
enough positional arguments. -/
theorem expr_to_latex_total (e : Expr) (h : argsOkE e = true) : (expr_to_latex e).isSome :=
  match e, h with
  | .const v, _ => by simp [expr_to_latex]
  | .name id, _ => by simp [expr_to_latex]
  | .binOp op l r, h => by
    simp only [argsOkE, Bool.and_eq_true] at h
    obtain ⟨ls, hls⟩ := Option.isSome_iff_exists.mp (expr_to_latex_total l h.1)
    obtain ⟨rs, hrs⟩ := Option.isSome_iff_exists.mp (expr_to_latex_total r h.2)
    simp [expr_to_latex, hls, hrs]
  | .unaryOp u o, h => by
    simp only [argsOkE] at h
    obtain ⟨os, hos⟩ := Option.isSome_iff_exists.mp (expr_to_latex_total o h)
    simp [expr_to_latex, hos]
  | .call f args, h => by
    simp only [argsOkE, Bool.and_eq_true] at h
    obtain ⟨ls, hls, hlen⟩ := elistLatex_total args h.2
    simp only [expr_to_latex, hls, Option.bind_eq_bind, Option.some_bind]
    exact symCallTemplate_total (symFuncName f) ls (by rw [hlen]; exact h.1)
  | .compare l pairs, h => by
    simp only [argsOkE, Bool.and_eq_true] at h
    obtain ⟨ls, hls⟩ := Option.isSome_iff_exists.mp (expr_to_latex_total l h.1)
    simp only [expr_to_latex, hls, Option.bind_eq_bind, Option.some_bind]
    exact clistLatex_total pairs ls h.2
  | .ifExp t b o, h => by
    simp only [argsOkE, Bool.and_eq_true] at h
    obtain ⟨ts, hts⟩ := Option.isSome_iff_exists.mp (expr_to_latex_total t h.1.1)
    obtain ⟨bs, hbs⟩ := Option.isSome_iff_exists.mp (expr_to_latex_total b h.1.2)
    obtain ⟨os, hos⟩ := Option.isSome_iff_exists.mp (expr_to_latex_total o h.2)
    simp [expr_to_latex, hts, hbs, hos]
  | .subscript v sl, h => by
    simp only [argsOkE, Bool.and_eq_true] at h
    obtain ⟨vs, hvs⟩ := Option.isSome_iff_exists.mp (expr_to_latex_total v h.1)
    have hidx : (match sl with
                 | .const c => some (pyStr c)
                 | _ => expr_to_latex sl).isSome := by
      cases sl with
      | const c => rfl
      | name id => exact expr_to_latex_total _ h.2
      | binOp op l r => exact expr_to_latex_total _ h.2
      | unaryOp u o => exact expr_to_latex_total _ h.2
      | call f args => exact expr_to_latex_total _ h.2
      | compare l pairs => exact expr_to_latex_total _ h.2
      | ifExp t b o => exact expr_to_latex_total _ h.2
      | subscript v2 s2 => exact expr_to_latex_total _ h.2
      | listE elts => exact expr_to_latex_total _ h.2
      | tupleE elts => exact expr_to_latex_total _ h.2
      | otherE => exact expr_to_latex_total _ h.2
    obtain ⟨is, his⟩ := Option.isSome_iff_exists.mp hidx
    simp only [expr_to_latex, hvs, Option.bind_eq_bind, Option.some_bind]
    cases sl <;> simp_all
  | .listE elts, h => by
    simp only [argsOkE] at h
    obtain ⟨ls, hls, _⟩ := elistLatex_total elts h
    simp [expr_to_latex, hls]
  | .tupleE elts, h => by
    simp only [argsOkE] at h
    obtain ⟨ls, hls, _⟩ := elistLatex_total elts h
    simp [expr_to_latex, hls]
  | .otherE, _ => by simp [expr_to_latex]
/-- Totality of the symbolic renderer over argument lists, with the
length of the rendered list. -/
theorem elistLatex_total (es : EList) (h : argsOkEL es = true) :
    ∃ ls : List String, elistLatex es = some ls ∧ ls.length = elistLen es :=
  match es, h with
  | .nil, _ => ⟨[], rfl, rfl⟩
  | .cons e es, h => by
    simp only [argsOkEL, Bool.and_eq_true] at h
    obtain ⟨s, hs⟩ := Option.isSome_iff_exists.mp (expr_to_latex_total e h.1)
    obtain ⟨ls, hls, hlen⟩ := elistLatex_total es h.2
    exact ⟨s :: ls, by simp [elistLatex, hs, hls], by simp [hlen, elistLen]⟩
/-- Totality of the comparison-chain renderer. -/
theorem clistLatex_total (ps : CList) (acc : String) (h : argsOkCL ps = true) :
    (clistLatex acc ps).isSome :=
  match ps, h with
  | .nil, _ => by simp [clistLatex]
  | .cons op e es, h => by
    simp only [argsOkCL, Bool.and_eq_true] at h
    obtain ⟨rs, hrs⟩ := Option.isSome_iff_exists.mp (expr_to_latex_total e h.1)
    simp only [clistLatex, hrs, Option.bind_eq_bind, Option.some_bind]
    exact clistLatex_total es _ h.2
end

mutual
/-- The substitution renderer is total under the same arity condition
(its template needs are a subset of the symbolic ones, and its fallback
is the symbolic renderer). -/
theorem substitute_values_total (e : Expr) (env : Env) (h : argsOkE e = true) :
    (substitute_values e env).isSome :=
  match e, h with
  | .const v, _ => by cases v <;> simp [substitute_values]
  | .name id, _ => by
    rcases hl : List.lookup id env with _ | v
    · simp [substitute_values, hl]
    · cases v <;> simp [substitute_values, hl]
  | .binOp op l r, h => by
    simp only [argsOkE, Bool.and_eq_true] at h
    obtain ⟨ls, hls⟩ := Option.isSome_iff_exists.mp (substitute_values_total l env h.1)
    obtain ⟨rs, hrs⟩ := Option.isSome_iff_exists.mp (substitute_values_total r env h.2)
    simp [substitute_values, hls, hrs]
  | .unaryOp u o, h => by
    simp only [argsOkE] at h
    obtain ⟨os, hos⟩ := Option.isSome_iff_exists.mp (substitute_values_total o env h)
    simp [substitute_values, hos]
  | .call f args, h => by
    simp only [argsOkE, Bool.and_eq_true] at h
    obtain ⟨ls, hls, hlen⟩ := elistSubst_total args env h.2
    simp only [substitute_values, hls, Option.bind_eq_bind, Option.some_bind]
    cases f with
    | fname s => exact substCallTemplate_total s ls (by rw [hlen]; exact h.1)
    | fattr s => exact substCallTemplate_total "func" ls rfl
    | fother => exact substCallTemplate_total "func" ls rfl
  | .compare l pairs, h => by
    simp only [substitute_values]
    exact expr_to_latex_total _ h
  | .ifExp t b o, h => by
    simp only [substitute_values]
    exact expr_to_latex_total _ h
  | .subscript v sl, h => by
    simp only [substitute_values]
    exact expr_to_latex_total _ h
  | .listE elts, h => by
    simp only [substitute_values]
    exact expr_to_latex_total _ h
  | .tupleE elts, h => by
    simp only [substitute_values]
    exact expr_to_latex_total _ h
  | .otherE, h => by
    simp only [substitute_values]
    exact expr_to_latex_total _ h
/-- Totality of the substitution renderer over argument lists. -/
theorem elistSubst_total (es : EList) (env : Env) (h : argsOkEL es = true) :
    ∃ ls : List String, elistSubst es env = some ls ∧ ls.length = elistLen es :=
  match es, h with
  | .nil, _ => ⟨[], rfl, rfl⟩
  | .cons e es, h => by
    simp only [argsOkEL, Bool.and_eq_true] at h
    obtain ⟨s, hs⟩ := Option.isSome_iff_exists.mp (substitute_values_total e env h.1)
    obtain ⟨ls, hls, hlen⟩ := elistSubst_total es env h.2
    exact ⟨s :: ls, by simp [elistSubst, hs, hls], by simp [hlen, elistLen]⟩
end

/-- `format_value` is total exactly on values that are not non-finite
floats. -/
theorem format_value_total (v : PyVal) (h : finiteVal v = true) :
    (format_value v).isSome := by
  cases v with
  | vFloat f =>
    cases f with
    | finite q =>
      simp only [format_value]
      split <;> rfl
    | inf => simp [finiteVal] at h
    | ninf => simp [finiteVal] at h
    | nan => simp [finiteVal] at h
  | vComplex re im => simp [format_value]
  | vInt n => rfl
  | vBool b => cases b <;> rfl
  | vStr s => rfl
  | vNone => rfl
  | vOther s => rfl

/-- The non-trivial line builder is total on arity-sound expressions. -/
theorem nonTrivialLine_total (sy su re : Bool) (env : Env) (e : Expr)
    (vlat vstr : String) (h : argsOkE e = true) :
    (nonTrivialLine sy su re env e vlat vstr).isSome := by
  obtain ⟨s, hs⟩ := Option.isSome_iff_exists.mp (expr_to_latex_total e h)
  obtain ⟨t, ht⟩ := Option.isSome_iff_exists.mp (substitute_values_total e env h)
  cases sy <;> cases su <;> cases re <;>
    simp [nonTrivialLine, hs, ht]

/-- Does a statement's rendered expression satisfy the arity condition?
Only a single-name-target assignment ever reaches the renderers. -/
def stmtArgsOk : Stmt → Bool
  | .assign [.tname _] e => argsOkE e
  | _ => true

/-- One step of the statement loop cannot raise if the evaluator only
ever produces formatter-safe values and the statement's expression is
arity-sound. -/
theorem stepStmt_total (eval : Env → Stmt → Option Env) (sy su re : Bool)
    (env : Env) (st : Stmt)
    (heval : ∀ env1 env2, eval env1 st = some env2 → ∀ p ∈ env2, finiteVal p.2 = true)
    (hok : stmtArgsOk st = true) :
    (stepStmt eval sy su re env st).isSome := by
  cases st with
  | assign targets expr =>
    match targets with
    | [] => rfl
    | .tother :: _ => rfl
    | [.tname v] =>
      simp only [stepStmt]
      rcases he : eval env (.assign [.tname v] expr) with _ | env2
      · rfl
      · rcases hl : List.lookup v env2 with _ | value
        · simp [hl]
        · have hfin : finiteVal value = true :=
            heval env env2 he (v, value) (lookupMem env2 v value hl)
          obtain ⟨vs, hvs⟩ := Option.isSome_iff_exists.mp (format_value_total value hfin)
          have hok2 : argsOkE expr = true := hok
          rcases hc : isConstE expr with _ | _
          · obtain ⟨line, hline⟩ := Option.isSome_iff_exists.mp
              (nonTrivialLine_total sy su re env2 expr (name_to_latex v) vs hok2)
            simp [hl, hvs, hc, hline]
          · simp [hl, hvs, hc]
    | .tname _ :: t :: rest => rfl
  | augAssign target op expr =>
    cases target with
    | tother => rfl
    | tname v =>
      simp only [stepStmt]
      rcases he : eval env (.augAssign (.tname v) op expr) with _ | env2
      · rfl
      · rcases hl : List.lookup v env2 with _ | value
        · simp [hl]
        · have hfin : finiteVal value = true :=
            heval env env2 he (v, value) (lookupMem env2 v value hl)
          obtain ⟨vs, hvs⟩ := Option.isSome_iff_exists.mp (format_value_total value hfin)
          simp [hl, hvs]
  | other => rfl

/-- The statement loop cannot raise under the same conditions, from any
starting environment. -/
theorem processStmts_total (eval : Env → Stmt → Option Env) (sy su re : Bool)
    (stmts : List Stmt)
    (heval : ∀ env1 st env2, eval env1 st = some env2 → ∀ p ∈ env2, finiteVal p.2 = true)
    (hok : ∀ st ∈ stmts, stmtArgsOk st = true) :
    ∀ env : Env, (processStmts eval sy su re env stmts).isSome := by
  induction stmts with
  | nil => intro env; rfl
  | cons st rest ih =>
    intro env
    have hstep := stepStmt_total eval sy su re env st
      (fun env1 env2 he => heval env1 st env2 he) (hok st (by simp))
    obtain ⟨p, hp⟩ := Option.isSome_iff_exists.mp hstep
    have hrest := ih (fun st2 hst2 => hok st2 (by simp [hst2])) p.2
    obtain ⟨pr, hpr⟩ := Option.isSome_iff_exists.mp hrest
    simp [processStmts, hp, hpr]

/-- Counterexample to C1: `format_value` has no defined rendering for a
non-finite float — Python `round(float('inf'))` raises `OverflowError`
inside the float branch — and the error escapes `python_to_latex`.  The
well-formed input `x = 1e400` parses to an assignment of a float-infinity
literal, the literal evaluator binds it, and the conversion raises
instead of producing output. -/
theorem c1_counterexample :
    format_value (.vFloat .inf) = none ∧
    python_to_latex litEval true true true
      [.assign [.tname "x"] (.const (.vFloat .inf))] = none := by
  exact ⟨rfl, by decide⟩

/-- A concrete external evaluator for the totality witness: it executes
exactly the integer-literal assignments, producing a fresh one-binding
namespace, and raises on everything else. -/
def constIntEval : Env → Stmt → Option Env := fun _ st =>
  match st with
  | .assign [.tname v] (.const (.vInt k)) => some [(v, .vInt k)]
  | _ => none

/-- C1 as amended: the conversion never raises provided the evaluator
only ever binds formatter-safe values (no non-finite floats) and every
single-name assignment's expression gives each specially-templated call
enough positional arguments.  Without those provisos the claim fails: the
formatter raises on non-finite floats (see the counterexample) and the
renderers raise on arity-short templated calls such as a zero-argument
`sqrt` after `sqrt` has been rebound. -/
theorem c1_amended_no_raise :
    ∀ (eval : Env → Stmt → Option Env) (sy su re : Bool) (stmts : List Stmt),
      (∀ env st env2, eval env st = some env2 → ∀ p ∈ env2, finiteVal p.2 = true) →
      (∀ st ∈ stmts, stmtArgsOk st = true) →
      (python_to_latex eval sy su re stmts).isSome := by
  intro eval sy su re stmts heval hok
  have hp := processStmts_total eval sy su re stmts
    (fun env1 st env2 he => heval env1 st env2 he) hok initialNamespace
  obtain ⟨p, hp2⟩ := Option.isSome_iff_exists.mp hp
  simp [python_to_latex, hp2]

/-- Witness for C1 as amended: the integer-literal evaluator satisfies
the value proviso, and a run with one literal assignment and one
(dropped) derived assignment completes without raising. -/
theorem c1_amended_no_raise_witness :
    (python_to_latex constIntEval true true true
      [.assign [.tname "x"] (.const (.vInt 5)),
       .assign [.tname "z"] (.binOp .add (.name "x") (.name "y"))]).isSome := by
  apply c1_amended_no_raise
  · intro env st env2 h p hp
    unfold constIntEval at h
    split at h
    · injection h with h2
      subst h2
      simp only [List.mem_singleton] at hp
      subst hp
      rfl
    · exact absurd h (by simp)
  · intro st hst
    simp only [List.mem_cons, List.not_mem_nil, or_false] at hst
    rcases hst with rfl | rfl
    · decide
    · decide
